import Mathlib

/-!
Verification of the feature-queue and validation-loop core
(`src/builder/src/features.py` and `src/builder/src/ralph.py`).

Feature records are JSON objects whose keys may be absent; every field of
`Feature` is therefore an `Option`, with `none` meaning the key is missing.
`Option.getD` mirrors Python's `dict.get(key, default)`.
-/

set_option autoImplicit false

/-- A feature record (one JSON object of `feature_list.json`).  Each field is
optional because the underlying dict may lack the key. -/
structure Feature where
  id : Option Int := none
  priority : Option Int := none
  category : Option String := none
  name : Option String := none
  description : Option String := none
  steps : Option (List String) := none
  passes : Option Bool := none
  in_progress : Option Bool := none
  attempt_count : Option Int := none
  last_error : Option String := none
  deriving Repr, DecidableEq, Inhabited

/-- An input item passed to `create_bulk` (only the caller-supplied keys). -/
structure CbItem where
  category : Option String := none
  name : Option String := none
  description : Option String := none
  steps : Option (List String) := none
  deriving Repr, DecidableEq, Inhabited

/-- Result of `get_stats`. -/
structure Stats where
  passing : Nat
  in_progress : Nat
  total : Nat
  percentage : ℚ
  deriving Repr, DecidableEq

/-- The persisted Ralph loop state (`.ralph-loop-state.json`). -/
structure RalphState where
  current_feature : Option Int := none
  iteration : Int := 0
  deriving Repr, DecidableEq, Inhabited

/-- Configuration of the loop controller (`RalphConfig`).  The promise
pattern is fixed to its default `<promise>(.+?)</promise>`, which is embedded
directly in `detect_promise`. -/
structure RalphConfig where
  max_iterations : Int := 5
  deriving Repr, DecidableEq, Inhabited

/-- State of a persisted JSON document: the file may be absent, may fail to
parse, or may hold a parsed value. -/
inductive StoredDoc (α : Type) where
  | absent : StoredDoc α
  | corrupt : StoredDoc α
  | parsed : α → StoredDoc α
  deriving Repr, DecidableEq

/-- Generic load with a fallback: `FeatureList._load` and
`RalphLoopController._load_state` both return a default when the file is
absent or unparsable, so neither ever raises to its caller. -/
def loadD {α : Type} (d : StoredDoc α) (dflt : α) : α :=
  match d with
  | .parsed v => v
  | .absent => dflt
  | .corrupt => dflt

/-- `FeatureList._load`: the feature store degrades to the empty list when
the backing file is absent or corrupt. -/
def load (d : StoredDoc (List Feature)) : List Feature :=
  loadD d []

/-- Position-aware first-match search; `p` receives the absolute index, as in
Python's `enumerate` loops. -/
def findIdxP (p : Nat → Feature → Bool) : List Feature → Option Nat
  | [] => none
  | f :: rest =>
    if p 0 f then some 0
    else (findIdxP (fun n g => p (n + 1) g) rest).map (· + 1)

/-- Index resolution used by `get_by_id`, `mark_passing`, `mark_in_progress`
and `clear_in_progress`: scan for an explicit `id` field equal to the query
first; otherwise fall back to treating the query as a bounds-checked array
position. -/
def resolveIdx (features : List Feature) (fid : Int) : Option Nat :=
  match findIdxP (fun _ f => f.id == some fid) features with
  | some i => some i
  | none =>
    if 0 ≤ fid ∧ fid < (features.length : Int) then some fid.toNat else none

/-- The first-loop match used by `skip` and `increment_attempt`: explicit `id`
equal to the query, or a record without `id` sitting exactly at the queried
position. -/
def loopIdx (features : List Feature) (fid : Int) : Option Nat :=
  findIdxP (fun i f => f.id == some fid || (f.id == none && (i : Int) == fid)) features

/-- Index resolution of `skip` and `increment_attempt`: the loop match above,
then the bounds-checked positional fallback. -/
def loopResolveIdx (features : List Feature) (fid : Int) : Option Nat :=
  match loopIdx features fid with
  | some i => some i
  | none =>
    if 0 ≤ fid ∧ fid < (features.length : Int) then some fid.toNat else none

/-- Python `max(gen, default=0)`: `0` only for the empty list, otherwise the
true maximum (which may be negative). -/
def maxD : List Int → Int
  | [] => 0
  | x :: xs => xs.foldl max x

/-- Exact-arithmetic model of Python `round(q, 1)`: round to one decimal
digit, ties to the even multiple of one tenth (banker's rounding). -/
def round1 (q : ℚ) : ℚ :=
  let x : ℚ := 10 * q
  let n : ℤ := ⌊x⌋
  let k : ℤ :=
    if x - n < 1 / 2 then n
    else if x - n > 1 / 2 then n + 1
    else if n % 2 = 0 then n else n + 1
  (k : ℚ) / 10

/-- `FeatureList.get_stats` on a loaded store. The call performs no save, so
it is a pure function of the store. -/
def get_stats (features : List Feature) : Stats :=
  let total := features.length
  let passing := features.countP (fun f => f.passes.getD false)
  let ip := features.countP (fun f => f.in_progress.getD false)
  { passing := passing
    in_progress := ip
    total := total
    percentage :=
      if total > 0 then round1 (((passing : ℚ) / (total : ℚ)) * 100) else 0 }

/-- Helper for `FeatureList.get_next`: scan from absolute index `k` for the
first record whose `passes` is not truthy; the returned copy carries the
synthesized `id` (the array position) when the record has none. -/
def get_next_aux : List Feature → Nat → Option (Nat × Feature)
  | [], _ => none
  | f :: rest, k =>
    if f.passes.getD false then get_next_aux rest (k + 1)
    else some (k, { f with id := some (f.id.getD (k : Int)) })

/-- `FeatureList.get_next`: first non-passing feature in stored order, with
the array position as implicit id when no explicit one is present.  Performs
no save. -/
def get_next (features : List Feature) : Option (Nat × Feature) :=
  get_next_aux features 0

/-- `FeatureList.get_by_id`: explicit-id lookup first, then positional
fallback; the returned copy gets `id := feature_id` when the record has no
explicit id.  Performs no save. -/
def get_by_id (features : List Feature) (fid : Int) : Option (Nat × Feature) :=
  match resolveIdx features fid with
  | none => none
  | some i =>
    (features[i]?).map (fun f => (i, { f with id := some (f.id.getD fid) }))

/-- Result of a mutating queue operation: the returned record (or the
not-found sentinel `none`), the resulting store contents, and whether
`_save` was invoked. -/
structure MutRes where
  ret : Option Feature
  store : List Feature
  saved : Bool
  deriving Repr, DecidableEq

/-- `FeatureList.mark_passing`: set `passes` on the resolved record, clear
`in_progress` only when that key already exists, save, and return the
record; not-found sentinel otherwise (no save). -/
def mark_passing (features : List Feature) (fid : Int) : MutRes :=
  match resolveIdx features fid with
  | none => ⟨none, features, false⟩
  | some i =>
    match features[i]? with
    | none => ⟨none, features, false⟩
    | some f =>
      let f' := { f with passes := some true,
                         in_progress := f.in_progress.map (fun _ => false) }
      ⟨some f', features.set i f', true⟩

/-- `FeatureList.mark_in_progress`: not-found sentinel (and no save) when the
resolved record already passes or nothing resolves; otherwise set
`in_progress := true`, save, and return the record. -/
def mark_in_progress (features : List Feature) (fid : Int) : MutRes :=
  match resolveIdx features fid with
  | none => ⟨none, features, false⟩
  | some i =>
    match features[i]? with
    | none => ⟨none, features, false⟩
    | some f =>
      if f.passes.getD false then ⟨none, features, false⟩
      else
        let f' := { f with in_progress := some true }
        ⟨some f', features.set i f', true⟩

/-- `FeatureList.clear_in_progress`: unconditionally set
`in_progress := false` on the resolved record (creating the key), save, and
return it. -/
def clear_in_progress (features : List Feature) (fid : Int) : MutRes :=
  match resolveIdx features fid with
  | none => ⟨none, features, false⟩
  | some i =>
    match features[i]? with
    | none => ⟨none, features, false⟩
    | some f =>
      let f' := { f with in_progress := some false }
      ⟨some f', features.set i f', true⟩

/-- `FeatureList.increment_attempt`: bump `attempt_count` on the record found
by the loop-style resolution; overwrite `last_error` only when a non-empty
(truthy) error string is supplied. -/
def increment_attempt (features : List Feature) (fid : Int)
    (error : Option String) : MutRes :=
  match loopResolveIdx features fid with
  | none => ⟨none, features, false⟩
  | some i =>
    match features[i]? with
    | none => ⟨none, features, false⟩
    | some f =>
      let f' := { f with
        attempt_count := some (f.attempt_count.getD 0 + 1),
        last_error := if (error.getD "").isEmpty then f.last_error else error }
      ⟨some f', features.set i f', true⟩

/-- The record returned by a successful `skip`. -/
structure SkipInfo where
  id : Int
  description : String
  message : String
  deriving Repr, DecidableEq

/-- Result of `skip`: the info record or the not-found sentinel, the
resulting store, and whether `_save` ran. -/
structure SkipRes where
  ret : Option SkipInfo
  store : List Feature
  saved : Bool
  deriving Repr, DecidableEq

/-- `FeatureList.skip`: resolve with the loop-style match; a resolved record
that already passes yields the sentinel without saving; otherwise the record
is removed from its position, its `in_progress` is set to `false`, and it is
appended at the end. -/
def skip (features : List Feature) (fid : Int) : SkipRes :=
  match loopResolveIdx features fid with
  | none => ⟨none, features, false⟩
  | some i =>
    match features[i]? with
    | none => ⟨none, features, false⟩
    | some f =>
      if f.passes.getD false then ⟨none, features, false⟩
      else
        ⟨some { id := fid,
                description := f.description.getD (f.name.getD ""),
                message := "Feature moved to end of queue" },
         features.eraseIdx i ++ [{ f with in_progress := some false }],
         true⟩

/-- The fresh records appended by `create_bulk`, starting at index `j` past
the maxima `M` (ids) and `P` (priorities). -/
def bulkNew (M P : Int) : Nat → List CbItem → List Feature
  | _, [] => []
  | j, it :: rest =>
    { id := some (M + (j : Int) + 1)
      priority := some (P + (j : Int) + 1)
      category := some (it.category.getD "general")
      name := some (it.name.getD ("Feature " ++ toString (M + (j : Int) + 1)))
      description := some (it.description.getD "")
      steps := some (it.steps.getD [])
      passes := some false
      in_progress := some false
      attempt_count := some 0
      last_error := none } :: bulkNew M P (j + 1) rest

/-- `FeatureList.create_bulk`: append one fresh record per input item, with
ids and priorities counting up from the respective existing maxima; returns
the number created and the saved store. -/
def create_bulk (features : List Feature) (items : List CbItem) :
    Nat × List Feature :=
  let M := maxD (features.map (fun f => f.id.getD 0))
  let P := maxD (features.map (fun f => f.priority.getD 0))
  (items.length, features ++ bulkNew M P 0 items)

/-- Characters of the literal `<promise>` opening tag. -/
def openTag : List Char := "<promise>".data

/-- Characters of the literal `</promise>` closing tag. -/
def closeTag : List Char := "</promise>".data

/-- Lazy capture of `(.+?)` followed by `</promise>`: consume at least one
non-newline character and stop at the earliest position where the closing
tag follows; fail on a newline or when no closing tag is reachable. -/
def scanCapture : List Char → Option (List Char)
  | [] => none
  | c :: rest =>
    if c = '\n' then none
    else if closeTag.isPrefixOf rest then some [c]
    else
      match scanCapture rest with
      | some cs => some (c :: cs)
      | none => none

/-- Leftmost match of `<promise>(.+?)</promise>` over a character list:
regex search tries every start position left to right; a start position
matches only if the opening tag sits there and a lazy capture succeeds. -/
def findPromise : List Char → Option (List Char)
  | [] => none
  | l@(_ :: rest) =>
    if openTag.isPrefixOf l then
      match scanCapture (l.drop openTag.length) with
      | some cap => some cap
      | none => findPromise rest
    else findPromise rest

/-- `RalphLoopController.detect_promise` with the default
`promise_pattern`: the first captured promise token, if any. -/
def detect_promise (output : String) : Option String :=
  (findPromise output.data).map (fun l => ⟨l⟩)

/-- Substring containment on character lists (Python's `in` on strings). -/
def listContains (l pat : List Char) : Bool :=
  match l with
  | [] => pat.isEmpty
  | _ :: t => pat.isPrefixOf l || listContains t pat

/-- Substring containment on strings (Python's `pat in s`). -/
def strContainsB (s pat : String) : Bool :=
  listContains s.data pat.data

/-- The success token `FEATURE_{id}_VALIDATED` for a feature id. -/
def validTok (fid : Int) : String :=
  "FEATURE_" ++ toString fid ++ "_VALIDATED"

/-- The give-up token `FEATURE_{id}_BLOCKED` for a feature id. -/
def blockTok (fid : Int) : String :=
  "FEATURE_" ++ toString fid ++ "_BLOCKED"

/-- Result of `RalphLoopController.process_result`. -/
structure ProcessResult where
  validated : Bool
  blocked : Bool
  should_continue : Bool
  promise : Option String
  deriving Repr, DecidableEq

/-- Python truthiness of an optional string: falsy when absent or empty. -/
def pyTruthyStr (s : Option String) : Bool :=
  match s with
  | none => false
  | some t => !t.isEmpty

/-- `RalphLoopController.process_result`: classify the detected promise
against the tokens of `feature.get("id", 0)` (substring containment,
`VALIDATED` checked before `BLOCKED`), then force `should_continue` off when
the attempt count has reached the cap. -/
def process_result (cfg : RalphConfig) (feature : Feature) (output : String) :
    ProcessResult :=
  let fid := feature.id.getD 0
  let promise := detect_promise output
  let v := pyTruthyStr promise && strContainsB (promise.getD "") (validTok fid)
  let b := pyTruthyStr promise && !strContainsB (promise.getD "") (validTok fid)
             && strContainsB (promise.getD "") (blockTok fid)
  let capped := decide (feature.attempt_count.getD 0 ≥ cfg.max_iterations)
  { validated := v
    blocked := b
    should_continue := !v && !b && !capped
    promise := promise }

/-- Template segment before the feature id in the prompt header. -/
def pA : String := "# RALPH VALIDATION LOOP\n\nYou are in a validation loop for feature #"

/-- Template segment between the feature id and the feature name. -/
def pB : String := ": \""

/-- Template segment between the feature name and the steps block. -/
def pC : String := "\"\n\n## VALIDATION TASK\n\nVerify that the feature works correctly by following these steps:\n\n"

/-- Template segment between the steps block and the first promise mention. -/
def pD : String := "\n\n## VALIDATION RULES\n\n1. **If ALL steps pass:**\n   - Output: `<promise>FEATURE_"

/-- Template segment between the first promise mention and the attempt number. -/
def pE : String := "_VALIDATED</promise>`\n   - This signals validation is complete\n\n2. **If ANY step fails:**\n   - Document the specific failure\n   - Attempt to fix the issue\n   - Re-run the validation\n   - Continue until fixed or max attempts reached\n\n## CURRENT STATUS\n\n- **Attempt:** "

/-- Template segment between the attempt number and the iteration cap. -/
def pF : String := " / "

/-- Template segment between the iteration cap and the last error. -/
def pG : String := "\n- **Last Error:** "

/-- Template segment between the last error and the success promise recap. -/
def pH : String := "\n\n## SELF-CORRECTION PROCESS\n\nWhen a step fails:\n\n1. **Identify** - What exactly failed?\n2. **Diagnose** - Why did it fail?\n3. **Fix** - Make the necessary code changes\n4. **Re-test** - Run the failing step again\n5. **Repeat** - Until the step passes\n\n## PROMISE-BASED COMPLETION\n\nOutput one of these promises when done:\n\n- Success: `<promise>FEATURE_"

/-- Template segment between the success recap and the blocked recap. -/
def pI : String := "_VALIDATED</promise>`\n- Max Attempts: `<promise>FEATURE_"

/-- Closing template segment after the blocked recap. -/
def pJ : String := "_BLOCKED</promise>`\n\n---\n\nBegin validation now.\n"

/-- The rendered steps block: one `- step` line per step, joined by
newlines, exactly as `steps_formatted` in the source. -/
def stepsBlock (steps : List String) : String :=
  String.intercalate "\n" (steps.map (fun step => "- " ++ step))

/-- `RalphLoopController.create_validation_prompt`: the full f-string
template, with `feature.get` defaults as in the source. -/
def create_validation_prompt (cfg : RalphConfig) (feature : Feature) : String :=
  let fid := toString (feature.id.getD 0)
  let fname := feature.name.getD "Unknown"
  let steps_formatted := stepsBlock (feature.steps.getD [])
  let attempts := toString (feature.attempt_count.getD 0 + 1)
  let cap := toString cfg.max_iterations
  let lastErr := feature.last_error.getD "None"
  pA ++ fid ++ pB ++ fname ++ pC ++ steps_formatted ++ pD ++ fid ++ pE ++
    attempts ++ pF ++ cap ++ pG ++ lastErr ++ pH ++ fid ++ pI ++ fid ++ pJ

/-- Result of `start_validation`: the prompt (or `none`), the resulting
feature store, whether the store was saved, and the loop state written (or
`none` when the state file was not touched). -/
structure StartRes where
  prompt : Option String
  store : List Feature
  storeSaved : Bool
  savedState : Option RalphState
  deriving Repr, DecidableEq

/-- `RalphLoopController.start_validation`: resolve the feature, mark it
in-progress (ignoring that call's outcome), persist
`{current_feature := id, iteration := 0}`, and return the prompt rendered
from the feature as fetched before the mark. -/
def start_validation (cfg : RalphConfig) (store : List Feature) (fid : Int) :
    StartRes :=
  match get_by_id store fid with
  | none => ⟨none, store, false, none⟩
  | some (_, feature) =>
    let m := mark_in_progress store fid
    ⟨some (create_validation_prompt cfg feature), m.store, m.saved,
     some { current_feature := some fid, iteration := 0 }⟩

/-- Result of `continue_validation`: the `(done, next_prompt)` pair, the
resulting feature store, whether the store was saved, and the loop state
written (`none` when the state file was not rewritten). -/
structure ContinueRes where
  done : Bool
  prompt : Option String
  store : List Feature
  storeSaved : Bool
  savedState : Option RalphState
  deriving Repr, DecidableEq

/-- `RalphLoopController.continue_validation`: load the loop state (absent or
corrupt state degrades to `{none, 0}`); `if not feature_id:` makes both a
missing pointer and the integer `0` terminate immediately; otherwise process
the output for the resolved feature and take the validated / blocked-or-capped
/ iterate branch.  The final refetch cannot fail once the first lookup
succeeded (an increment preserves resolution), so its `none` arm is
unreachable. -/
def continue_validation (cfg : RalphConfig) (store : List Feature)
    (stateDoc : StoredDoc RalphState) (output : String) : ContinueRes :=
  let st := loadD stateDoc { current_feature := none, iteration := 0 }
  if st.current_feature.getD 0 = 0 then ⟨true, none, store, false, none⟩
  else
    let fid := st.current_feature.getD 0
    match get_by_id store fid with
    | none => ⟨true, none, store, false, none⟩
    | some (_, feature) =>
      let result := process_result cfg feature output
      if result.validated then
        let m := mark_passing store fid
        ⟨true, none, m.store, m.saved,
         some { current_feature := none, iteration := 0 }⟩
      else if result.blocked || !result.should_continue then
        let c := clear_in_progress store fid
        ⟨true, none, c.store, c.saved,
         some { current_feature := none, iteration := 0 }⟩
      else
        let m := increment_attempt store fid none
        let st2 : RalphState :=
          { current_feature := st.current_feature, iteration := st.iteration + 1 }
        match get_by_id m.store fid with
        | some (_, f2) =>
          ⟨false, some (create_validation_prompt cfg f2), m.store, m.saved, some st2⟩
        | none => ⟨false, none, m.store, m.saved, some st2⟩

theorem strData_append (a b : String) : (a ++ b).data = a.data ++ b.data := rfl

theorem listContains_of_infix {x l : List Char} (h : x <:+: l) :
    listContains l x = true := by
  induction l with
  | nil =>
    have hx : x = [] := List.infix_nil.mp h
    simp [hx, listContains]
  | cons a t ih =>
    rcases List.infix_cons_iff.mp h with hp | hi
    · simp [listContains, List.isPrefixOf_iff_prefix.mpr hp]
    · simp [listContains, ih hi]

theorem strContains_intro {s pat : String} (u v : List Char)
    (h : s.data = u ++ pat.data ++ v) : strContainsB s pat = true :=
  listContains_of_infix ⟨u, v, h.symm⟩

theorem ne_empty_of_contains {s pat : String} (h : strContainsB s pat = true)
    (hp : pat ≠ "") : s ≠ "" := by
  intro hs
  subst hs
  cases pat with
  | mk d =>
    cases d with
    | nil => exact hp rfl
    | cons c cs => simp [strContainsB, listContains, List.isEmpty] at h

theorem scanCapture_ne_nil : ∀ {l c : List Char}, scanCapture l = some c → c ≠ [] := by
  intro l
  induction l with
  | nil => intro c h; simp [scanCapture] at h
  | cons a t ih =>
    intro c h
    rw [scanCapture] at h
    split at h
    · exact absurd h (by simp)
    · split at h
      · cases h; simp
      · cases hs : scanCapture t with
        | none => rw [hs] at h; cases h
        | some cs => rw [hs] at h; cases h; simp

theorem findPromise_ne_nil : ∀ {l c : List Char}, findPromise l = some c → c ≠ [] := by
  intro l
  induction l with
  | nil => intro c h; simp [findPromise] at h
  | cons a t ih =>
    intro c h
    rw [findPromise] at h
    split at h
    · cases hs : scanCapture ((a :: t).drop openTag.length) with
      | none => rw [hs] at h; exact ih h
      | some cap => rw [hs] at h; cases h; exact scanCapture_ne_nil hs
    · exact ih h

theorem detect_promise_ne_empty {out : String} {t : String}
    (h : detect_promise out = some t) : t ≠ "" := by
  rw [detect_promise] at h
  cases hf : findPromise out.data with
  | none => rw [hf] at h; cases h
  | some c =>
    rw [hf] at h
    cases h
    intro he
    exact findPromise_ne_nil hf (congrArg String.data he)

theorem findIdxP_some :
    ∀ (p : Nat → Feature → Bool) (l : List Feature) (i : Nat),
      findIdxP p l = some i →
      i < l.length ∧ ∃ f, l[i]? = some f ∧ p i f = true := by
  intro p l
  induction l generalizing p with
  | nil => intro i h; simp [findIdxP] at h
  | cons a t ih =>
    intro i h
    rw [findIdxP] at h
    split at h
    · cases h
      exact ⟨Nat.succ_pos _, a, by simp, by assumption⟩
    · rw [Option.map_eq_some'] at h
      obtain ⟨j, hj, rfl⟩ := h
      obtain ⟨hlt, f, hf, hpf⟩ := ih (fun n g => p (n + 1) g) j hj
      exact ⟨Nat.succ_lt_succ hlt, f, by simpa using hf, hpf⟩

theorem findIdxP_set :
    ∀ (p : Nat → Feature → Bool) (l : List Feature) (i : Nat) (f g : Feature),
      l[i]? = some f → (∀ j, p j g = p j f) →
      findIdxP p (l.set i g) = findIdxP p l := by
  intro p l
  induction l generalizing p with
  | nil => intro i f g h _; simp at h
  | cons a t ih =>
    intro i f g h hp
    cases i with
    | zero =>
      have hfa : a = f := by simpa using h
      subst hfa
      simp only [List.set]
      simp only [findIdxP]
      rw [hp 0]
    | succ n =>
      have hgt : t[n]? = some f := by simpa using h
      simp only [List.set]
      simp only [findIdxP]
      rw [ih (fun m g => p (m + 1) g) n f g hgt (fun j => hp (j + 1))]

theorem resolveIdx_lt {l : List Feature} {fid : Int} {i : Nat}
    (h : resolveIdx l fid = some i) : i < l.length := by
  rw [resolveIdx] at h
  cases hf : findIdxP (fun _ f => f.id == some fid) l with
  | some j =>
    rw [hf] at h; cases h
    exact (findIdxP_some _ _ _ hf).1
  | none =>
    rw [hf] at h
    by_cases hc : 0 ≤ fid ∧ fid < (l.length : Int)
    · rw [if_pos hc] at h
      injection h with h'
      obtain ⟨h1, h2⟩ := hc
      omega
    · rw [if_neg hc] at h
      cases h

theorem loopResolveIdx_lt {l : List Feature} {fid : Int} {i : Nat}
    (h : loopResolveIdx l fid = some i) : i < l.length := by
  rw [loopResolveIdx] at h
  cases hf : loopIdx l fid with
  | some j =>
    rw [hf] at h; cases h
    exact (findIdxP_some _ _ _ hf).1
  | none =>
    rw [hf] at h
    by_cases hc : 0 ≤ fid ∧ fid < (l.length : Int)
    · rw [if_pos hc] at h
      injection h with h'
      obtain ⟨h1, h2⟩ := hc
      omega
    · rw [if_neg hc] at h
      cases h

theorem resolveIdx_set {l : List Feature} {fid : Int} {i : Nat} {f : Feature}
    (g : Feature) (h : l[i]? = some f) (hid : g.id = f.id) :
    resolveIdx (l.set i g) fid = resolveIdx l fid := by
  rw [resolveIdx, resolveIdx,
    findIdxP_set (fun _ f => f.id == some fid) l i f g h (fun _ => by simp [hid]),
    List.length_set]

theorem get_by_id_eq {store : List Feature} {fid : Int} {i : Nat} {f : Feature}
    (hres : resolveIdx store fid = some i) (hget : store[i]? = some f) :
    get_by_id store fid = some (i, { f with id := some (f.id.getD fid) }) := by
  rw [get_by_id, hres]
  show (store[i]?).map (fun f => (i, { f with id := some (f.id.getD fid) })) = _
  rw [hget]
  rfl

theorem get_by_id_some {store : List Feature} {fid : Int} {i : Nat} {F : Feature}
    (h : get_by_id store fid = some (i, F)) :
    resolveIdx store fid = some i ∧
      ∃ f, store[i]? = some f ∧ F = { f with id := some (f.id.getD fid) } := by
  rw [get_by_id] at h
  cases hr : resolveIdx store fid with
  | none =>
    rw [hr] at h
    exact Option.noConfusion h
  | some j =>
    rw [hr] at h
    have h2 : (store[j]?).map
        (fun f => (j, { f with id := some (f.id.getD fid) })) = some (i, F) := h
    cases hg : store[j]? with
    | none =>
      rw [hg] at h2
      exact Option.noConfusion h2
    | some f =>
      rw [hg] at h2
      have h3 : (j, ({ f with id := some (f.id.getD fid) } : Feature)) = (i, F) :=
        Option.some.inj h2
      obtain ⟨rfl, rfl⟩ : j = i ∧ ({ f with id := some (f.id.getD fid) } : Feature) = F :=
        ⟨congrArg Prod.fst h3, congrArg Prod.snd h3⟩
      exact ⟨rfl, f, hg, rfl⟩

theorem cvp_contains_id (cfg : RalphConfig) (f : Feature) :
    strContainsB (create_validation_prompt cfg f) (toString (f.id.getD 0)) = true := by
  apply strContains_intro pA.data
    ((pB ++ f.name.getD "Unknown" ++ pC ++ stepsBlock (f.steps.getD []) ++ pD ++
      toString (f.id.getD 0) ++ pE ++ toString (f.attempt_count.getD 0 + 1) ++ pF ++
      toString cfg.max_iterations ++ pG ++ f.last_error.getD "None" ++ pH ++
      toString (f.id.getD 0) ++ pI ++ toString (f.id.getD 0) ++ pJ).data)
  simp [create_validation_prompt, strData_append, List.append_assoc]

theorem cvp_contains_name (cfg : RalphConfig) (f : Feature) :
    strContainsB (create_validation_prompt cfg f) (f.name.getD "Unknown") = true := by
  apply strContains_intro (pA ++ toString (f.id.getD 0) ++ pB).data
    ((pC ++ stepsBlock (f.steps.getD []) ++ pD ++
      toString (f.id.getD 0) ++ pE ++ toString (f.attempt_count.getD 0 + 1) ++ pF ++
      toString cfg.max_iterations ++ pG ++ f.last_error.getD "None" ++ pH ++
      toString (f.id.getD 0) ++ pI ++ toString (f.id.getD 0) ++ pJ).data)
  simp [create_validation_prompt, strData_append, List.append_assoc]

theorem cvp_contains_steps (cfg : RalphConfig) (f : Feature) :
    strContainsB (create_validation_prompt cfg f) (stepsBlock (f.steps.getD [])) = true := by
  apply strContains_intro (pA ++ toString (f.id.getD 0) ++ pB ++ f.name.getD "Unknown" ++ pC).data
    ((pD ++ toString (f.id.getD 0) ++ pE ++ toString (f.attempt_count.getD 0 + 1) ++ pF ++
      toString cfg.max_iterations ++ pG ++ f.last_error.getD "None" ++ pH ++
      toString (f.id.getD 0) ++ pI ++ toString (f.id.getD 0) ++ pJ).data)
  simp [create_validation_prompt, strData_append, List.append_assoc]

theorem cvp_contains_attempt_cap (cfg : RalphConfig) (f : Feature) :
    strContainsB (create_validation_prompt cfg f)
      (toString (f.attempt_count.getD 0 + 1) ++ " / " ++ toString cfg.max_iterations) = true := by
  apply strContains_intro (pA ++ toString (f.id.getD 0) ++ pB ++ f.name.getD "Unknown" ++ pC ++
      stepsBlock (f.steps.getD []) ++ pD ++ toString (f.id.getD 0) ++ pE).data
    ((pG ++ f.last_error.getD "None" ++ pH ++
      toString (f.id.getD 0) ++ pI ++ toString (f.id.getD 0) ++ pJ).data)
  simp [create_validation_prompt, pF, strData_append, List.append_assoc]

theorem cvp_contains_attempt (cfg : RalphConfig) (f : Feature) :
    strContainsB (create_validation_prompt cfg f)
      (toString (f.attempt_count.getD 0 + 1)) = true := by
  apply strContains_intro (pA ++ toString (f.id.getD 0) ++ pB ++ f.name.getD "Unknown" ++ pC ++
      stepsBlock (f.steps.getD []) ++ pD ++ toString (f.id.getD 0) ++ pE).data
    ((pF ++ toString cfg.max_iterations ++ pG ++ f.last_error.getD "None" ++ pH ++
      toString (f.id.getD 0) ++ pI ++ toString (f.id.getD 0) ++ pJ).data)
  simp [create_validation_prompt, strData_append, List.append_assoc]

theorem cvp_contains_last_error (cfg : RalphConfig) (f : Feature) :
    strContainsB (create_validation_prompt cfg f) (f.last_error.getD "None") = true := by
  apply strContains_intro (pA ++ toString (f.id.getD 0) ++ pB ++ f.name.getD "Unknown" ++ pC ++
      stepsBlock (f.steps.getD []) ++ pD ++ toString (f.id.getD 0) ++ pE ++
      toString (f.attempt_count.getD 0 + 1) ++ pF ++ toString cfg.max_iterations ++ pG).data
    ((pH ++ toString (f.id.getD 0) ++ pI ++ toString (f.id.getD 0) ++ pJ).data)
  simp [create_validation_prompt, strData_append, List.append_assoc]

theorem cvp_contains_header (cfg : RalphConfig) (f : Feature) :
    strContainsB (create_validation_prompt cfg f) pA = true := by
  apply strContains_intro []
    ((toString (f.id.getD 0) ++ pB ++ f.name.getD "Unknown" ++ pC ++
      stepsBlock (f.steps.getD []) ++ pD ++ toString (f.id.getD 0) ++ pE ++
      toString (f.attempt_count.getD 0 + 1) ++ pF ++ toString cfg.max_iterations ++ pG ++
      f.last_error.getD "None" ++ pH ++
      toString (f.id.getD 0) ++ pI ++ toString (f.id.getD 0) ++ pJ).data)
  simp [create_validation_prompt, strData_append, List.append_assoc]

theorem cvp_ne_empty (cfg : RalphConfig) (f : Feature) :
    create_validation_prompt cfg f ≠ "" :=
  ne_empty_of_contains (cvp_contains_header cfg f) (by decide)

theorem mark_passing_eq {store : List Feature} {fid : Int} {i : Nat} {f : Feature}
    (hres : resolveIdx store fid = some i) (hget : store[i]? = some f) :
    mark_passing store fid =
      ⟨some { f with passes := some true,
                     in_progress := f.in_progress.map (fun _ => false) },
       store.set i { f with passes := some true,
                            in_progress := f.in_progress.map (fun _ => false) },
       true⟩ := by
  rw [mark_passing, hres]
  show (match store[i]? with
    | none => (⟨none, store, false⟩ : MutRes)
    | some f =>
      ⟨some { f with passes := some true,
                     in_progress := f.in_progress.map (fun _ => false) },
       store.set i { f with passes := some true,
                            in_progress := f.in_progress.map (fun _ => false) },
       true⟩) = _
  rw [hget]

theorem mark_in_progress_pass_eq {store : List Feature} {fid : Int} {i : Nat} {f : Feature}
    (hres : resolveIdx store fid = some i) (hget : store[i]? = some f)
    (hp : f.passes.getD false = true) :
    mark_in_progress store fid = ⟨none, store, false⟩ := by
  rw [mark_in_progress, hres]
  show (match store[i]? with
    | none => (⟨none, store, false⟩ : MutRes)
    | some f =>
      if f.passes.getD false then ⟨none, store, false⟩
      else ⟨some { f with in_progress := some true },
            store.set i { f with in_progress := some true }, true⟩) = _
  rw [hget]
  simp [hp]

theorem mark_in_progress_eq {store : List Feature} {fid : Int} {i : Nat} {f : Feature}
    (hres : resolveIdx store fid = some i) (hget : store[i]? = some f)
    (hp : f.passes.getD false = false) :
    mark_in_progress store fid =
      ⟨some { f with in_progress := some true },
       store.set i { f with in_progress := some true }, true⟩ := by
  rw [mark_in_progress, hres]
  show (match store[i]? with
    | none => (⟨none, store, false⟩ : MutRes)
    | some f =>
      if f.passes.getD false then ⟨none, store, false⟩
      else ⟨some { f with in_progress := some true },
            store.set i { f with in_progress := some true }, true⟩) = _
  rw [hget]
  simp [hp]

theorem clear_in_progress_eq {store : List Feature} {fid : Int} {i : Nat} {f : Feature}
    (hres : resolveIdx store fid = some i) (hget : store[i]? = some f) :
    clear_in_progress store fid =
      ⟨some { f with in_progress := some false },
       store.set i { f with in_progress := some false }, true⟩ := by
  rw [clear_in_progress, hres]
  show (match store[i]? with
    | none => (⟨none, store, false⟩ : MutRes)
    | some f =>
      ⟨some { f with in_progress := some false },
       store.set i { f with in_progress := some false }, true⟩) = _
  rw [hget]

theorem increment_attempt_eq {store : List Feature} {fid : Int} {i : Nat} {f : Feature}
    (hres : loopResolveIdx store fid = some i) (hget : store[i]? = some f) :
    increment_attempt store fid none =
      ⟨some { f with attempt_count := some (f.attempt_count.getD 0 + 1) },
       store.set i { f with attempt_count := some (f.attempt_count.getD 0 + 1) },
       true⟩ := by
  rw [increment_attempt, hres]
  show (match store[i]? with
    | none => (⟨none, store, false⟩ : MutRes)
    | some f =>
      ⟨some { f with
          attempt_count := some (f.attempt_count.getD 0 + 1),
          last_error := if ((none : Option String).getD "").isEmpty then f.last_error
                        else none },
       store.set i { f with
          attempt_count := some (f.attempt_count.getD 0 + 1),
          last_error := if ((none : Option String).getD "").isEmpty then f.last_error
                        else none },
       true⟩) = _
  rw [hget]
  rfl

theorem isEmpty_false_of_ne {t : String} (hne : t ≠ "") : t.isEmpty = false :=
  Bool.eq_false_iff.mpr (fun hc => hne ((String.isEmpty_iff _).mp hc))

theorem pr_validated_true {cfg : RalphConfig} {F : Feature} {output t : String}
    (hdt : detect_promise output = some t)
    (hct : strContainsB t (validTok (F.id.getD 0)) = true) :
    (process_result cfg F output).validated = true := by
  have hie : t.isEmpty = false := isEmpty_false_of_ne (detect_promise_ne_empty hdt)
  simp [process_result, hdt, pyTruthyStr, hie, hct]

theorem pr_validated_false {cfg : RalphConfig} {F : Feature} {output : String}
    (h : ¬ ∃ t, detect_promise output = some t ∧
      strContainsB t (validTok (F.id.getD 0)) = true) :
    (process_result cfg F output).validated = false := by
  cases hdt : detect_promise output with
  | none => simp [process_result, hdt, pyTruthyStr]
  | some t =>
    have hct : strContainsB t (validTok (F.id.getD 0)) = false :=
      Bool.eq_false_iff.mpr (fun hc => h ⟨t, hdt, hc⟩)
    simp [process_result, hdt, hct]

theorem pr_blocked_true {cfg : RalphConfig} {F : Feature} {output t : String}
    (hdt : detect_promise output = some t)
    (hnv : strContainsB t (validTok (F.id.getD 0)) = false)
    (hcb : strContainsB t (blockTok (F.id.getD 0)) = true) :
    (process_result cfg F output).blocked = true := by
  have hie : t.isEmpty = false := isEmpty_false_of_ne (detect_promise_ne_empty hdt)
  simp [process_result, hdt, pyTruthyStr, hie, hnv, hcb]

theorem pr_blocked_false {cfg : RalphConfig} {F : Feature} {output : String}
    (h : ¬ ∃ t, detect_promise output = some t ∧
      strContainsB t (blockTok (F.id.getD 0)) = true) :
    (process_result cfg F output).blocked = false := by
  cases hdt : detect_promise output with
  | none => simp [process_result, hdt, pyTruthyStr]
  | some t =>
    have hcb : strContainsB t (blockTok (F.id.getD 0)) = false :=
      Bool.eq_false_iff.mpr (fun hc => h ⟨t, hdt, hc⟩)
    simp [process_result, hdt, hcb]

theorem pr_should_continue (cfg : RalphConfig) (F : Feature) (output : String) :
    (process_result cfg F output).should_continue =
      (!(process_result cfg F output).validated &&
        !(process_result cfg F output).blocked &&
        !(decide (F.attempt_count.getD 0 ≥ cfg.max_iterations))) := rfl

theorem continue_validation_step (cfg : RalphConfig) (store : List Feature)
    (st : RalphState) (output : String) (X : Int) (i : Nat) (F : Feature)
    (hX : st.current_feature = some X) (hX0 : X ≠ 0)
    (hgb : get_by_id store X = some (i, F)) :
    continue_validation cfg store (.parsed st) output =
      (if (process_result cfg F output).validated then
        ⟨true, none, (mark_passing store X).store, (mark_passing store X).saved,
         some { current_feature := none, iteration := 0 }⟩
      else if (process_result cfg F output).blocked
          || !(process_result cfg F output).should_continue then
        ⟨true, none, (clear_in_progress store X).store, (clear_in_progress store X).saved,
         some { current_feature := none, iteration := 0 }⟩
      else
        match get_by_id (increment_attempt store X none).store X with
        | some (_, f2) =>
          ⟨false, some (create_validation_prompt cfg f2),
           (increment_attempt store X none).store, (increment_attempt store X none).saved,
           some { current_feature := some X, iteration := st.iteration + 1 }⟩
        | none =>
          ⟨false, none, (increment_attempt store X none).store,
           (increment_attempt store X none).saved,
           some { current_feature := some X, iteration := st.iteration + 1 }⟩ :
        ContinueRes) := by
  simp only [continue_validation, loadD, hX, Option.getD_some]
  rw [if_neg hX0, hgb]

theorem le_foldl_max (t : List Int) :
    ∀ (acc x : Int), (x ≤ acc ∨ x ∈ t) → x ≤ t.foldl max acc := by
  induction t with
  | nil =>
    intro acc x h
    rcases h with h | h
    · simpa using h
    · simp at h
  | cons b t ih =>
    intro acc x h
    rw [List.foldl_cons]
    rcases h with h | h
    · exact ih (max acc b) x (Or.inl (le_trans h (le_max_left _ _)))
    · rcases List.mem_cons.mp h with h | h
      · exact ih (max acc b) x (Or.inl (h ▸ le_max_right _ _))
      · exact ih (max acc b) x (Or.inr h)

theorem le_maxD {l : List Int} {x : Int} (h : x ∈ l) : x ≤ maxD l := by
  cases l with
  | nil => simp at h
  | cons a t =>
    rw [maxD]
    rcases List.mem_cons.mp h with h | h
    · exact le_foldl_max t a x (Or.inl (le_of_eq h))
    · exact le_foldl_max t a x (Or.inr h)

theorem bulkNew_length (M P : Int) :
    ∀ (j : Nat) (items : List CbItem), (bulkNew M P j items).length = items.length := by
  intro j items
  induction items generalizing j with
  | nil => simp [bulkNew]
  | cons it rest ih => simp [bulkNew, ih]

theorem bulkNew_getElem (M P : Int) :
    ∀ (items : List CbItem) (j0 k : Nat) (it : CbItem), items[k]? = some it →
      (bulkNew M P j0 items)[k]? = some
        { id := some (M + ((j0 + k : Nat) : Int) + 1)
          priority := some (P + ((j0 + k : Nat) : Int) + 1)
          category := some (it.category.getD "general")
          name := some (it.name.getD ("Feature " ++ toString (M + ((j0 + k : Nat) : Int) + 1)))
          description := some (it.description.getD "")
          steps := some (it.steps.getD [])
          passes := some false
          in_progress := some false
          attempt_count := some 0
          last_error := none } := by
  intro items
  induction items with
  | nil => intro j0 k it h; simp at h
  | cons a rest ih =>
    intro j0 k it h
    cases k with
    | zero =>
      have ha : a = it := by simpa using h
      subst ha
      simp [bulkNew]
    | succ n =>
      have hr : rest[n]? = some it := by simpa using h
      have := ih (j0 + 1) n it hr
      rw [bulkNew]
      have harith : j0 + 1 + n = j0 + (n + 1) := by omega
      simpa [harith] using this

theorem get_next_aux_spec :
    ∀ (l : List Feature) (k : Nat),
      (get_next_aux l k = none ↔ ∀ f ∈ l, f.passes.getD false = true) ∧
      (∀ i r, get_next_aux l k = some (i, r) →
        ∃ j f, i = k + j ∧ l[j]? = some f ∧ f.passes.getD false = false ∧
          (∀ m g, m < j → l[m]? = some g → g.passes.getD false = true) ∧
          r = { f with id := some (f.id.getD ((k + j : Nat) : Int)) }) := by
  intro l
  induction l with
  | nil =>
    intro k
    constructor
    · simp [get_next_aux]
    · intro i r h; simp [get_next_aux] at h
  | cons a t ih =>
    intro k
    by_cases hp : a.passes.getD false = true
    · constructor
      · rw [get_next_aux, if_pos hp, (ih (k + 1)).1]
        constructor
        · intro hall f hf
          rcases List.mem_cons.mp hf with rfl | hf
          · exact hp
          · exact hall f hf
        · intro hall f hf
          exact hall f (List.mem_cons_of_mem _ hf)
      · intro i r h
        rw [get_next_aux, if_pos hp] at h
        obtain ⟨j, f, rfl, hj, hnp, hearlier, hr⟩ := (ih (k + 1)).2 i r h
        refine ⟨j + 1, f, by omega, by simpa using hj, hnp, ?_, ?_⟩
        · intro m g hm hg
          cases m with
          | zero =>
            have hg' : a = g := by simpa using hg
            rw [← hg']
            exact hp
          | succ m' =>
            exact hearlier m' g (by omega) (by simpa using hg)
        · rw [show k + (j + 1) = k + 1 + j from by omega]
          exact hr
    · have hp' : a.passes.getD false = false := by
        cases hv : a.passes.getD false
        · rfl
        · exact absurd hv hp
      constructor
      · rw [get_next_aux, if_neg (by simp [hp'])]
        constructor
        · intro h; cases h
        · intro hall
          exact absurd (hall a (by simp)) (by simp [hp'])
      · intro i r h
        rw [get_next_aux, if_neg (by simp [hp'])] at h
        have h2 : (k, ({ a with id := some (a.id.getD (k : Int)) } : Feature)) = (i, r) :=
          Option.some.inj h
        obtain ⟨rfl, rfl⟩ : k = i ∧ ({ a with id := some (a.id.getD (k : Int)) } : Feature) = r :=
          ⟨congrArg Prod.fst h2, congrArg Prod.snd h2⟩
        refine ⟨0, a, by omega, by simp, hp', ?_, by simp⟩
        intro m g hm hg
        omega

/-- Claim C3: when the persisted loop state has `current_feature = 0` (a valid
implicit feature id under positional addressing), `continue_validation`
returns `(done := true, no prompt)` immediately, for every agent output,
without mutating the feature store and without rewriting the loop state file,
exactly as it behaves when no loop state exists at all. -/
theorem claim_C3 (cfg : RalphConfig) (store : List Feature) (iter : Int)
    (output : String) :
    continue_validation cfg store
        (.parsed { current_feature := some 0, iteration := iter }) output =
      { done := true, prompt := none, store := store, storeSaved := false,
        savedState := none } ∧
    continue_validation cfg store
        (.parsed { current_feature := some 0, iteration := iter }) output =
      continue_validation cfg store .absent output := by
  constructor <;> rfl

/-- Claim C10: `load` is total (never raises): it returns the parsed sequence
when the file parses, and the empty sequence when the file is absent or
corrupt, so every queue operation on a corrupted store behaves as on an empty
store. -/
theorem claim_C10 :
    (load .absent = [] ∧ load .corrupt = []) ∧
    (∀ l, load (.parsed l) = l) ∧
    (∀ d : StoredDoc (List Feature), d = .absent ∨ d = .corrupt →
      load d = load (.parsed []) ∧
      (∀ fid, get_by_id (load d) fid = get_by_id [] fid) ∧
      get_stats (load d) = get_stats [] ∧
      get_next (load d) = get_next [] ∧
      (∀ fid, mark_passing (load d) fid = mark_passing [] fid) ∧
      (∀ fid, mark_in_progress (load d) fid = mark_in_progress [] fid) ∧
      (∀ fid, skip (load d) fid = skip [] fid) ∧
      (∀ items, create_bulk (load d) items = create_bulk [] items)) := by
  refine ⟨⟨rfl, rfl⟩, fun l => rfl, ?_⟩
  rintro d (rfl | rfl) <;>
    exact ⟨rfl, fun _ => rfl, rfl, rfl, fun _ => rfl, fun _ => rfl, fun _ => rfl,
      fun _ => rfl⟩

theorem claim_C10_witness :
    ((StoredDoc.corrupt : StoredDoc (List Feature)) = .absent ∨
      (StoredDoc.corrupt : StoredDoc (List Feature)) = .corrupt) ∧
    load (.corrupt : StoredDoc (List Feature)) = load (.parsed []) :=
  ⟨Or.inr rfl, (claim_C10.2.2 .corrupt (Or.inr rfl)).1⟩

/-- Claim C9: `get_stats` counts the features whose `passes` and `in_progress`
flags are truthy (absent flags count as false), reports the store length as
`total`, and reports `percentage = round(100*passing/total, 1)` for non-empty
stores and `0.0` for empty ones.  The operation never saves, so it cannot
mutate the store. -/
theorem claim_C9 (features : List Feature) :
    (get_stats features).passing =
      (features.filter (fun f => f.passes.getD false)).length ∧
    (get_stats features).in_progress =
      (features.filter (fun f => f.in_progress.getD false)).length ∧
    (get_stats features).total = features.length ∧
    (features.length ≠ 0 →
      (get_stats features).percentage =
        round1 (100 * ((get_stats features).passing : ℚ) /
          ((get_stats features).total : ℚ))) ∧
    (features.length = 0 → (get_stats features).percentage = 0) := by
  refine ⟨?_, ?_, rfl, ?_, ?_⟩
  · simp [get_stats, List.countP_eq_length_filter]
  · simp [get_stats, List.countP_eq_length_filter]
  · intro h
    have hpos : 0 < features.length := Nat.pos_of_ne_zero h
    simp only [get_stats, if_pos hpos]
    congr 1
    ring
  · intro h
    simp [get_stats, h]

theorem claim_C9_witness :
    ([({ passes := some true } : Feature), {}] : List Feature).length ≠ 0 ∧
    (get_stats [({ passes := some true } : Feature), {}]).percentage =
      round1 (100 * ((get_stats [({ passes := some true } : Feature), {}]).passing : ℚ) /
        ((get_stats [({ passes := some true } : Feature), {}]).total : ℚ)) :=
  ⟨by decide, (claim_C9 _).2.2.2.1 (by decide)⟩

/-- Claim C7: for every id that resolves (explicit id field first, else
in-bounds array position), `mark_passing` sets `passes := true`, sets
`in_progress := false` only when that key already exists (never introducing
it), leaves all other fields of the record and all other records unchanged,
saves, and returns the updated record; an id that does not resolve yields the
not-found sentinel with nothing saved. -/
theorem claim_C7 (store : List Feature) (fid : Int) :
    (resolveIdx store fid = none → mark_passing store fid = ⟨none, store, false⟩) ∧
    (∀ i f, resolveIdx store fid = some i → store[i]? = some f →
      let f' : Feature := { f with passes := some true,
                                   in_progress := f.in_progress.map (fun _ => false) }
      mark_passing store fid = ⟨some f', store.set i f', true⟩ ∧
      f'.passes = some true ∧
      (f.in_progress.isSome = true → f'.in_progress = some false) ∧
      (f.in_progress = none → f'.in_progress = none) ∧
      f'.id = f.id ∧ f'.priority = f.priority ∧ f'.category = f.category ∧
      f'.name = f.name ∧ f'.description = f.description ∧ f'.steps = f.steps ∧
      f'.attempt_count = f.attempt_count ∧ f'.last_error = f.last_error ∧
      (∀ j, j ≠ i → (store.set i f')[j]? = store[j]?)) := by
  constructor
  · intro h
    rw [mark_passing, h]
  · intro i f hres hget
    dsimp only
    refine ⟨mark_passing_eq hres hget, rfl, ?_, ?_, rfl, rfl, rfl, rfl, rfl, rfl,
      rfl, rfl, ?_⟩
    · intro hs
      obtain ⟨b, hb⟩ := Option.isSome_iff_exists.mp hs
      simp [hb]
    · intro hn
      simp [hn]
    · intro j hj
      exact List.getElem?_set_ne (Ne.symm hj)

theorem claim_C7_witness :
    resolveIdx [({ in_progress := some true } : Feature)] 0 = some 0 ∧
    ([({ in_progress := some true } : Feature)] : List Feature)[0]? =
      some { in_progress := some true } ∧
    mark_passing [({ in_progress := some true } : Feature)] 0 =
      ⟨some { passes := some true, in_progress := some false },
       [{ passes := some true, in_progress := some false }], true⟩ := by
  refine ⟨by decide, by decide, ?_⟩
  exact ((claim_C7 _ 0).2 0 { in_progress := some true } (by decide) (by decide)).1

/-- Claim C8: `mark_in_progress` returns the not-found sentinel and saves
nothing when the resolved feature already passes (or when nothing resolves);
when the resolved feature does not pass it sets `in_progress := true`,
saves, and returns the record. -/
theorem claim_C8 (store : List Feature) (fid : Int) :
    (resolveIdx store fid = none → mark_in_progress store fid = ⟨none, store, false⟩) ∧
    (∀ i f, resolveIdx store fid = some i → store[i]? = some f →
      (f.passes.getD false = true → mark_in_progress store fid = ⟨none, store, false⟩) ∧
      (f.passes.getD false = false →
        mark_in_progress store fid =
          ⟨some { f with in_progress := some true },
           store.set i { f with in_progress := some true }, true⟩)) := by
  constructor
  · intro h
    rw [mark_in_progress, h]
  · intro i f hres hget
    exact ⟨fun hp => mark_in_progress_pass_eq hres hget hp,
           fun hp => mark_in_progress_eq hres hget hp⟩

theorem claim_C8_witness :
    resolveIdx [({ id := none } : Feature)] 0 = some 0 ∧
    ([({ id := none } : Feature)] : List Feature)[0]? = some { id := none } ∧
    ({ id := none } : Feature).passes.getD false = false ∧
    mark_in_progress [({ id := none } : Feature)] 0 =
      ⟨some { in_progress := some true }, [{ in_progress := some true }], true⟩ :=
  ⟨by decide, by decide, by decide,
    ((claim_C8 _ 0).2 0 { id := none } (by decide) (by decide)).2 (by decide)⟩

/-- Claim C4: `get_next` returns the first feature in stored order whose
`passes` is not truthy, with the array position synthesized as `id` when the
record carries none, and returns the not-found sentinel exactly when every
feature passes (in particular on the empty store).  The operation never
saves, so it cannot mutate the store. -/
theorem claim_C4 (features : List Feature) :
    (get_next features = none ↔ ∀ f ∈ features, f.passes.getD false = true) ∧
    (∀ i r, get_next features = some (i, r) →
      ∃ f, features[i]? = some f ∧ f.passes.getD false = false ∧
        (∀ m g, m < i → features[m]? = some g → g.passes.getD false = true) ∧
        r = { f with id := some (f.id.getD (i : Int)) }) := by
  constructor
  · exact (get_next_aux_spec features 0).1
  · intro i r h
    obtain ⟨j, f, hij, hj, hnp, he, hr⟩ := (get_next_aux_spec features 0).2 i r h
    have hji : j = i := by omega
    subst hji
    exact ⟨f, hj, hnp, he, by simpa using hr⟩

theorem claim_C4_witness :
    get_next [({ passes := some true } : Feature), { id := none }] =
      some (1, { id := some 1 }) ∧
    (∃ f, ([({ passes := some true } : Feature), { id := none }] : List Feature)[1]? = some f ∧
      f.passes.getD false = false ∧
      (∀ m g, m < 1 →
        ([({ passes := some true } : Feature), { id := none }] : List Feature)[m]? = some g →
        g.passes.getD false = true) ∧
      ({ id := some 1 } : Feature) = { f with id := some (f.id.getD (1 : Int)) }) :=
  ⟨by decide, (claim_C4 _).2 1 { id := some 1 } (by decide)⟩

/-- Claim C5: for every id whose loop-style resolution finds a non-passing
feature, `skip` removes that feature from its position, clears its
`in_progress` flag, appends it at the end (preserving the relative order of
all other features, adding and removing nothing), saves, and returns
`{id, description, message}`; when the resolved feature already passes it
returns the not-found sentinel and saves nothing. -/
theorem claim_C5 (store : List Feature) (fid : Int) :
    ∀ i f, loopResolveIdx store fid = some i → store[i]? = some f →
      (f.passes.getD false = true → skip store fid = ⟨none, store, false⟩) ∧
      (f.passes.getD false = false →
        skip store fid =
          ⟨some { id := fid,
                  description := f.description.getD (f.name.getD ""),
                  message := "Feature moved to end of queue" },
           store.eraseIdx i ++ [{ f with in_progress := some false }], true⟩ ∧
        (store.eraseIdx i ++ [{ f with in_progress := some false }]).length = store.length ∧
        (store.eraseIdx i ++ [{ f with in_progress := some false }]).getLast? =
          some { f with in_progress := some false }) := by
  intro i f hres hget
  have hlt : i < store.length := (List.getElem?_eq_some.mp hget).1
  constructor
  · intro hp
    rw [skip, hres]
    show (match store[i]? with
      | none => (⟨none, store, false⟩ : SkipRes)
      | some f =>
        if f.passes.getD false then ⟨none, store, false⟩
        else ⟨some { id := fid,
                     description := f.description.getD (f.name.getD ""),
                     message := "Feature moved to end of queue" },
              store.eraseIdx i ++ [{ f with in_progress := some false }], true⟩) = _
    rw [hget]
    simp [hp]
  · intro hp
    refine ⟨?_, ?_, List.getLast?_concat _⟩
    · rw [skip, hres]
      show (match store[i]? with
        | none => (⟨none, store, false⟩ : SkipRes)
        | some f =>
          if f.passes.getD false then ⟨none, store, false⟩
          else ⟨some { id := fid,
                       description := f.description.getD (f.name.getD ""),
                       message := "Feature moved to end of queue" },
                store.eraseIdx i ++ [{ f with in_progress := some false }], true⟩) = _
      rw [hget]
      simp [hp]
    · rw [List.length_append]
      have h1 := List.length_eraseIdx_add_one hlt
      simp only [List.length_singleton]
      omega

theorem claim_C5_witness :
    loopResolveIdx [({ description := some "d" } : Feature)] 0 = some 0 ∧
    ([({ description := some "d" } : Feature)] : List Feature)[0]? =
      some { description := some "d" } ∧
    skip [({ description := some "d" } : Feature)] 0 =
      ⟨some { id := 0, description := "d", message := "Feature moved to end of queue" },
       [{ description := some "d", in_progress := some false }], true⟩ := by
  refine ⟨by decide, by decide, ?_⟩
  exact ((claim_C5 _ 0 0 { description := some "d" } (by decide) (by decide)).2
    (by decide)).1

/-- Claim C6: `create_bulk` with K items returns K, appends exactly K fresh
records in input order (pre-existing records and their order untouched),
gives the j-th new record id `max_id + j + 1` and priority
`max_priority + j + 1` (so the new ids are strictly increasing and strictly
greater than every explicit pre-existing id), and defaults
`category := "general"`, `passes := false`, `in_progress := false`,
`attempt_count := 0`. -/
theorem claim_C6 (features : List Feature) (items : List CbItem) :
    (create_bulk features items).1 = items.length ∧
    (create_bulk features items).2.length = features.length + items.length ∧
    (∀ k, k < features.length → (create_bulk features items).2[k]? = features[k]?) ∧
    (∀ j it, items[j]? = some it →
      (create_bulk features items).2[features.length + j]? = some
        { id := some (maxD (features.map (fun f => f.id.getD 0)) + (j : Int) + 1)
          priority := some (maxD (features.map (fun f => f.priority.getD 0)) + (j : Int) + 1)
          category := some (it.category.getD "general")
          name := some (it.name.getD ("Feature " ++
            toString (maxD (features.map (fun f => f.id.getD 0)) + (j : Int) + 1)))
          description := some (it.description.getD "")
          steps := some (it.steps.getD [])
          passes := some false
          in_progress := some false
          attempt_count := some 0
          last_error := none }) ∧
    (∀ f ∈ features, ∀ v, f.id = some v →
      ∀ j : Nat, v < maxD (features.map (fun f => f.id.getD 0)) + (j : Int) + 1) ∧
    (∀ j1 j2 F1 F2,
      (create_bulk features items).2[features.length + j1]? = some F1 →
      (create_bulk features items).2[features.length + j2]? = some F2 →
      features.length + j1 < features.length + j2 →
      ∀ v1 v2, F1.id = some v1 → F2.id = some v2 → v1 < v2) := by
  have hsplit : (create_bulk features items).2 =
      features ++ bulkNew (maxD (features.map (fun f => f.id.getD 0)))
        (maxD (features.map (fun f => f.priority.getD 0))) 0 items := rfl
  refine ⟨rfl, ?_, ?_, ?_, ?_, ?_⟩
  · rw [hsplit, List.length_append, bulkNew_length]
  · intro k hk
    rw [hsplit]
    exact List.getElem?_append_left hk
  · intro j it hit
    rw [hsplit, List.getElem?_append_right (by omega)]
    have h := bulkNew_getElem (maxD (features.map (fun f => f.id.getD 0)))
      (maxD (features.map (fun f => f.priority.getD 0))) items 0 j it hit
    simpa using h
  · intro f hf v hv j
    have hvM : v ≤ maxD (features.map (fun f => f.id.getD 0)) :=
      le_maxD (List.mem_map.mpr ⟨f, hf, by rw [hv]; rfl⟩)
    omega
  · intro j1 j2 F1 F2 h1 h2 hj v1 v2 hv1 hv2
    rw [hsplit, List.getElem?_append_right (by omega)] at h1 h2
    have e1 : (bulkNew (maxD (features.map (fun f => f.id.getD 0)))
        (maxD (features.map (fun f => f.priority.getD 0))) 0 items)[j1]? = some F1 := by
      simpa using h1
    have e2 : (bulkNew (maxD (features.map (fun f => f.id.getD 0)))
        (maxD (features.map (fun f => f.priority.getD 0))) 0 items)[j2]? = some F2 := by
      simpa using h2
    have hb1 : j1 < items.length := by
      have := (List.getElem?_eq_some.mp e1).1
      rwa [bulkNew_length] at this
    have hb2 : j2 < items.length := by
      have := (List.getElem?_eq_some.mp e2).1
      rwa [bulkNew_length] at this
    obtain ⟨it1, hit1⟩ : ∃ it, items[j1]? = some it :=
      ⟨items[j1], List.getElem?_eq_getElem hb1⟩
    obtain ⟨it2, hit2⟩ : ∃ it, items[j2]? = some it :=
      ⟨items[j2], List.getElem?_eq_getElem hb2⟩
    have r1 := bulkNew_getElem (maxD (features.map (fun f => f.id.getD 0)))
      (maxD (features.map (fun f => f.priority.getD 0))) items 0 j1 it1 hit1
    have r2 := bulkNew_getElem (maxD (features.map (fun f => f.id.getD 0)))
      (maxD (features.map (fun f => f.priority.getD 0))) items 0 j2 it2 hit2
    have hF1 := Option.some.inj (e1.symm.trans r1)
    have hF2 := Option.some.inj (e2.symm.trans r2)
    have hv1' : some (maxD (features.map (fun f => f.id.getD 0)) + ((0 + j1 : Nat) : Int) + 1)
        = some v1 := by rw [← hv1, hF1]
    have hv2' : some (maxD (features.map (fun f => f.id.getD 0)) + ((0 + j2 : Nat) : Int) + 1)
        = some v2 := by rw [← hv2, hF2]
    have g1 := Option.some.inj hv1'
    have g2 := Option.some.inj hv2'
    omega

theorem claim_C6_witness :
    ([({ name := some "n" } : CbItem)] : List CbItem)[0]? = some { name := some "n" } ∧
    (create_bulk [] [({ name := some "n" } : CbItem)]).2[0]? = some
      { id := some 1, priority := some 1, category := some "general",
        name := some "n", description := some "", steps := some [],
        passes := some false, in_progress := some false, attempt_count := some 0,
        last_error := none } := by
  refine ⟨by decide, ?_⟩
  have h := (claim_C6 ([] : List Feature) [({ name := some "n" } : CbItem)]).2.2.2.1 0
    { name := some "n" } (by decide)
  simpa using h

/-- Claim C2: `start_validation` returns no prompt when `get_by_id` does not
resolve (touching neither file); when it resolves to a feature F it calls
`mark_in_progress`, persists loop state exactly
`{current_feature := id, iteration := 0}`, and returns a prompt containing
F's id, F's name (default "Unknown"), the rendered block of all of F's steps
in stored order, the attempt number `attempt_count + 1` together with the
configured cap, and F's `last_error` (default "None"). -/
theorem claim_C2 (cfg : RalphConfig) (store : List Feature) (fid : Int) :
    (get_by_id store fid = none → start_validation cfg store fid = ⟨none, store, false, none⟩) ∧
    (∀ i F, get_by_id store fid = some (i, F) →
      start_validation cfg store fid =
        ⟨some (create_validation_prompt cfg F), (mark_in_progress store fid).store,
         (mark_in_progress store fid).saved,
         some { current_feature := some fid, iteration := 0 }⟩ ∧
      strContainsB (create_validation_prompt cfg F) (toString (F.id.getD 0)) = true ∧
      strContainsB (create_validation_prompt cfg F) (F.name.getD "Unknown") = true ∧
      strContainsB (create_validation_prompt cfg F) (stepsBlock (F.steps.getD [])) = true ∧
      strContainsB (create_validation_prompt cfg F)
        (toString (F.attempt_count.getD 0 + 1) ++ " / " ++ toString cfg.max_iterations) = true ∧
      strContainsB (create_validation_prompt cfg F) (F.last_error.getD "None") = true ∧
      create_validation_prompt cfg F ≠ "") := by
  constructor
  · intro h
    rw [start_validation, h]
  · intro i F h
    refine ⟨?_, cvp_contains_id cfg F, cvp_contains_name cfg F, cvp_contains_steps cfg F,
      cvp_contains_attempt_cap cfg F, cvp_contains_last_error cfg F, cvp_ne_empty cfg F⟩
    rw [start_validation, h]

theorem claim_C2_witness :
    get_by_id [({ name := some "N" } : Feature)] 0 =
      some (0, { name := some "N", id := some 0 }) ∧
    (start_validation {} [({ name := some "N" } : Feature)] 0).savedState =
      some { current_feature := some 0, iteration := 0 } ∧
    strContainsB ((start_validation {} [({ name := some "N" } : Feature)] 0).prompt.getD "")
      "N" = true := by
  have h := (claim_C2 {} [({ name := some "N" } : Feature)] 0).2 0
    { name := some "N", id := some 0 } (by decide)
  refine ⟨by decide, ?_, ?_⟩
  · rw [h.1]
  · rw [h.1]
    exact h.2.2.1

/-- Claim C1 (amended): for an active validation session on feature X
(loop state `current_feature = some X` with `X ≠ 0`, resolving to a store
record whose id is X): output whose captured promise token contains
`FEATURE_X_VALIDATED` marks X passing, clears the loop state and returns
`(done := true, no prompt)`; otherwise a token containing `FEATURE_X_BLOCKED`,
or `attempt_count ≥ max_iterations`, clears X's `in_progress`, clears the
loop state and returns `(done := true, no prompt)`; otherwise — provided the
attempt-increment resolution targets the same record as the session lookup —
X's `attempt_count` is incremented by exactly one, the iteration counter is
incremented and persisted, and `(done := false)` is returned with a non-empty
re-rendered prompt showing the updated attempt number. -/
theorem claim_C1 (cfg : RalphConfig) (store : List Feature) (st : RalphState)
    (X : Int) (i : Nat) (f : Feature) (output : String)
    (hX : st.current_feature = some X) (hX0 : X ≠ 0)
    (hres : resolveIdx store X = some i) (hget : store[i]? = some f)
    (hfid : f.id.getD X = X) :
    ((∃ t, detect_promise output = some t ∧ strContainsB t (validTok X) = true) →
      continue_validation cfg store (.parsed st) output =
        ⟨true, none,
         store.set i { f with passes := some true,
                              in_progress := f.in_progress.map (fun _ => false) },
         true, some { current_feature := none, iteration := 0 }⟩ ∧
      ∃ g, (continue_validation cfg store (.parsed st) output).store[i]? = some g ∧
        g.passes = some true) ∧
    ((¬ ∃ t, detect_promise output = some t ∧ strContainsB t (validTok X) = true) →
      ((∃ t, detect_promise output = some t ∧ strContainsB t (blockTok X) = true) ∨
        cfg.max_iterations ≤ f.attempt_count.getD 0) →
      continue_validation cfg store (.parsed st) output =
        ⟨true, none, store.set i { f with in_progress := some false }, true,
         some { current_feature := none, iteration := 0 }⟩) ∧
    ((¬ ∃ t, detect_promise output = some t ∧ strContainsB t (validTok X) = true) →
      (¬ ∃ t, detect_promise output = some t ∧ strContainsB t (blockTok X) = true) →
      f.attempt_count.getD 0 < cfg.max_iterations →
      loopResolveIdx store X = some i →
      continue_validation cfg store (.parsed st) output =
        ⟨false,
         some (create_validation_prompt cfg
           { f with id := some X, attempt_count := some (f.attempt_count.getD 0 + 1) }),
         store.set i { f with attempt_count := some (f.attempt_count.getD 0 + 1) },
         true, some { current_feature := some X, iteration := st.iteration + 1 }⟩ ∧
      strContainsB (create_validation_prompt cfg
          { f with id := some X, attempt_count := some (f.attempt_count.getD 0 + 1) })
        (toString (f.attempt_count.getD 0 + 1 + 1)) = true ∧
      create_validation_prompt cfg
        { f with id := some X, attempt_count := some (f.attempt_count.getD 0 + 1) } ≠ "") := by
  have hgb : get_by_id store X = some (i, { f with id := some (f.id.getD X) }) :=
    get_by_id_eq hres hget
  have hFid : ({ f with id := some (f.id.getD X) } : Feature).id.getD 0 = X := by
    simpa using hfid
  have hstep := continue_validation_step cfg store st output X i
    { f with id := some (f.id.getD X) } hX hX0 hgb
  have hlt' : i < store.length := (List.getElem?_eq_some.mp hget).1
  refine ⟨?_, ?_, ?_⟩
  · rintro ⟨t, hdt, hct⟩
    have hv : (process_result cfg { f with id := some (f.id.getD X) } output).validated = true :=
      pr_validated_true hdt (by rw [hFid]; exact hct)
    have heq : continue_validation cfg store (.parsed st) output =
        ⟨true, none,
         store.set i { f with passes := some true,
                              in_progress := f.in_progress.map (fun _ => false) },
         true, some { current_feature := none, iteration := 0 }⟩ := by
      rw [hstep, if_pos hv]
      simp only [mark_passing_eq hres hget]
    refine ⟨heq, ?_⟩
    rw [heq]
    exact ⟨_, List.getElem?_set_eq_of_lt _ hlt', rfl⟩
  · intro hnv hb
    have hv : (process_result cfg { f with id := some (f.id.getD X) } output).validated = false :=
      pr_validated_false (by rw [hFid]; exact hnv)
    have hcond : ((process_result cfg { f with id := some (f.id.getD X) } output).blocked
        || !(process_result cfg { f with id := some (f.id.getD X) } output).should_continue)
        = true := by
      rcases hb with ⟨t, hdt, hcb⟩ | hcap
      · have hnvb : strContainsB t
            (validTok (({ f with id := some (f.id.getD X) } : Feature).id.getD 0)) = false := by
          rw [hFid]
          exact Bool.eq_false_iff.mpr (fun hc => hnv ⟨t, hdt, hc⟩)
        have hbT : (process_result cfg { f with id := some (f.id.getD X) } output).blocked
            = true := pr_blocked_true hdt hnvb (by rw [hFid]; exact hcb)
        simp [hbT]
      · have hsc : (process_result cfg { f with id := some (f.id.getD X) } output).should_continue
            = false := by
          rw [pr_should_continue]
          have hd : decide (({ f with id := some (f.id.getD X) } : Feature).attempt_count.getD 0
              ≥ cfg.max_iterations) = true := decide_eq_true hcap
          simp [hd]
        simp [hsc]
    rw [hstep, if_neg (by simp [hv]), if_pos hcond]
    simp only [clear_in_progress_eq hres hget]
  · intro hnv hnb hlt hinc
    have hv : (process_result cfg { f with id := some (f.id.getD X) } output).validated = false :=
      pr_validated_false (by rw [hFid]; exact hnv)
    have hb : (process_result cfg { f with id := some (f.id.getD X) } output).blocked = false :=
      pr_blocked_false (by rw [hFid]; exact hnb)
    have hsc : (process_result cfg { f with id := some (f.id.getD X) } output).should_continue
        = true := by
      rw [pr_should_continue]
      have hd : decide (({ f with id := some (f.id.getD X) } : Feature).attempt_count.getD 0
          ≥ cfg.max_iterations) = false := decide_eq_false (not_le.mpr hlt)
      simp [hv, hb, hd]
    have hincEq := increment_attempt_eq hinc hget
    have hres2 : resolveIdx
        (store.set i { f with attempt_count := some (f.attempt_count.getD 0 + 1) }) X
        = some i := by
      rw [resolveIdx_set { f with attempt_count := some (f.attempt_count.getD 0 + 1) } hget rfl]
      exact hres
    have hget2 : (store.set i { f with attempt_count := some (f.attempt_count.getD 0 + 1) })[i]?
        = some { f with attempt_count := some (f.attempt_count.getD 0 + 1) } :=
      List.getElem?_set_eq_of_lt _ hlt'
    have hgb2 : get_by_id
        (store.set i { f with attempt_count := some (f.attempt_count.getD 0 + 1) }) X
        = some (i, { f with id := some X,
                            attempt_count := some (f.attempt_count.getD 0 + 1) }) := by
      rw [get_by_id_eq hres2 hget2]
      simp [hfid]
    refine ⟨?_, ?_, ?_⟩
    · rw [hstep, if_neg (by simp [hv]), if_neg (by simp [hb, hsc])]
      simp only [hincEq]
      rw [hgb2]
    · exact cvp_contains_attempt cfg
        { f with id := some X, attempt_count := some (f.attempt_count.getD 0 + 1) }
    · exact cvp_ne_empty cfg _

set_option maxRecDepth 4000 in
/-- Counterexample to claim C1 as stated: the store holds two id-less records
followed by a record with explicit id 1, and the active session points at
feature 1 (which `get_by_id` resolves to the explicit-id record at index 2).
On promiseless output the claim demands that feature 1's `attempt_count` be
incremented and that the returned prompt show the updated attempt number;
instead `increment_attempt`'s loop-style resolution matches the id-less
record at position 1, feature 1's `attempt_count` stays absent, and the
prompt is re-rendered from the unchanged feature (same attempt number). -/
theorem claim_C1_cex :
    get_by_id [({ id := none } : Feature), { id := none }, { id := some 1 }] 1 =
      some (2, { id := some 1 }) ∧
    detect_promise "no promise" = none ∧
    (continue_validation {} [({ id := none } : Feature), { id := none }, { id := some 1 }]
        (.parsed { current_feature := some 1, iteration := 0 }) "no promise").done
      = false ∧
    (continue_validation {} [({ id := none } : Feature), { id := none }, { id := some 1 }]
        (.parsed { current_feature := some 1, iteration := 0 }) "no promise").store[2]?
      = some { id := some 1 } ∧
    (continue_validation {} [({ id := none } : Feature), { id := none }, { id := some 1 }]
        (.parsed { current_feature := some 1, iteration := 0 }) "no promise").store[1]?
      = some { id := none, attempt_count := some 1 } ∧
    (continue_validation {} [({ id := none } : Feature), { id := none }, { id := some 1 }]
        (.parsed { current_feature := some 1, iteration := 0 }) "no promise").prompt
      = some (create_validation_prompt {} { id := some 1 }) := by
  refine ⟨by decide, by decide, by decide, by decide, by decide, by decide⟩

set_option maxRecDepth 4000 in
theorem claim_C1_witness :
    ({ current_feature := some 1, iteration := 0 } : RalphState).current_feature = some 1 ∧
    (1 : Int) ≠ 0 ∧
    resolveIdx [({ id := some 1 } : Feature)] 1 = some 0 ∧
    ([({ id := some 1 } : Feature)] : List Feature)[0]? = some { id := some 1 } ∧
    ({ id := some 1 } : Feature).id.getD 1 = 1 ∧
    continue_validation {} [({ id := some 1 } : Feature)]
        (.parsed { current_feature := some 1, iteration := 0 })
        "<promise>FEATURE_1_VALIDATED</promise>" =
      ⟨true, none, [{ id := some 1, passes := some true }], true,
       some { current_feature := none, iteration := 0 }⟩ := by
  refine ⟨rfl, by decide, by decide, by decide, by decide, ?_⟩
  have h := (claim_C1 {} [({ id := some 1 } : Feature)]
      { current_feature := some 1, iteration := 0 } 1 0 { id := some 1 }
      "<promise>FEATURE_1_VALIDATED</promise>" rfl (by decide) (by decide) (by decide)
      (by decide)).1 ⟨"FEATURE_1_VALIDATED", by decide, by decide⟩
  exact h.1
